import Mathlib

/-
Shallow embedding of the CartPole decision agent (src/opencog-gym.py) and
verification of its specified properties.

Modelling conventions:
- Scalar quantities (truth-value strengths and counts, Beta parameters,
  rewards, observation channels, drawn variates) are modelled as `ℚ`.
- Atomese structures are modelled by the inductive type `Atom`: a typed node
  with a name, or a typed link with an ordered outgoing list.
- The external `TruthValue(strength, count)` pair is modelled as a structure
  with fields `mean` and `count`, the two accessors the source reads.
- A truth-value annotation placed on a constructed link (the `tv=...` keyword
  argument) is modelled by pairing the atom with its truth value (`TVAtom`).
- Randomness: `tv_rv` draws one Beta variate per call from the process-wide
  random source.  The stream of drawn variates is abstracted as an explicit
  `draws : Nat → ℚ` argument; the i-th draw performed inside a call is
  `draws i`.  All theorems quantify over every possible stream.
- Python fallibility (raised exceptions and implicit `None` fall-through
  returns) is modelled with `Option`: `none` stands for the absence of a
  normal result.
-/

namespace OpencogGym

/-- External `TruthValue` as read by the source: a strength (`mean`) together
with an evidential count (`count`). -/
structure TruthValue where
  mean : ℚ
  count : ℚ
deriving DecidableEq, Repr

/-- Atomese structures: typed nodes carrying a name, and typed links carrying
an ordered outgoing list of atoms. -/
inductive Atom where
  | node (ty : String) (nm : String)
  | link (ty : String) (out : List Atom)

/-- The atom's type tag (Python `x.type`). -/
def Atom.atype : Atom → String
  | .node ty _ => ty
  | .link ty _ => ty

/-- The atom's outgoing list (Python `x.out`; empty for nodes). -/
def Atom.out : Atom → List Atom
  | .node _ _ => []
  | .link _ out => out

mutual

def Atom.decEq : (a b : Atom) → Decidable (a = b)
  | .node t n, .node t' n' =>
    match String.decEq t t', String.decEq n n' with
    | isTrue h1, isTrue h2 => isTrue (by rw [h1, h2])
    | isFalse h1, _ => isFalse (fun h => by injection h; exact h1 ‹_›)
    | _, isFalse h2 => isFalse (fun h => by injection h; exact h2 ‹_›)
  | .node _ _, .link _ _ => isFalse (fun h => Atom.noConfusion h)
  | .link _ _, .node _ _ => isFalse (fun h => Atom.noConfusion h)
  | .link t o, .link t' o' =>
    match String.decEq t t', Atom.decEqList o o' with
    | isTrue h1, isTrue h2 => isTrue (by rw [h1, h2])
    | isFalse h1, _ => isFalse (fun h => by injection h; exact h1 ‹_›)
    | _, isFalse h2 => isFalse (fun h => by injection h; exact h2 ‹_›)

def Atom.decEqList : (l m : List Atom) → Decidable (l = m)
  | [], [] => isTrue rfl
  | [], _ :: _ => isFalse (fun h => List.noConfusion h)
  | _ :: _, [] => isFalse (fun h => List.noConfusion h)
  | x :: xs, y :: ys =>
    match Atom.decEq x y, Atom.decEqList xs ys with
    | isTrue h1, isTrue h2 => isTrue (by rw [h1, h2])
    | isFalse h1, _ => isFalse (fun h => by injection h; exact h1 ‹_›)
    | _, isFalse h2 => isFalse (fun h => by injection h; exact h2 ‹_›)

end

instance : DecidableEq Atom := Atom.decEq

/-- An atom together with the truth value annotated onto it at construction
time (the `tv=...` keyword of the atomese constructors). -/
structure TVAtom where
  atom : Atom
  tv : TruthValue
deriving DecidableEq

def SchemaNode (nm : String) : Atom := Atom.node "SchemaNode" nm
def PredicateNode (nm : String) : Atom := Atom.node "PredicateNode" nm
def NumberNode (nm : String) : Atom := Atom.node "NumberNode" nm
def VariableNode (nm : String) : Atom := Atom.node "VariableNode" nm
def TypeNode (nm : String) : Atom := Atom.node "TypeNode" nm
def TimeNode (nm : String) : Atom := Atom.node "TimeNode" nm
def EvaluationLink (p x : Atom) : Atom := Atom.link "EvaluationLink" [p, x]
def ExecutionLink (s : Atom) : Atom := Atom.link "ExecutionLink" [s]
def AndLink (outs : List Atom) : Atom := Atom.link "AndLink" outs
def GreaterThanLink (x y : Atom) : Atom := Atom.link "GreaterThanLink" [x, y]
def TypedVariableLink (v t : Atom) : Atom := Atom.link "TypedVariableLink" [v, t]
def AtTimeLink (x t : Atom) : Atom := Atom.link "AtTimeLink" [x, t]

def PredictiveImplicationScopeLink (vardecl expiry body goal : Atom)
    (tv : TruthValue) : TVAtom :=
  ⟨Atom.link "PredictiveImplicationScopeLink" [vardecl, expiry, body, goal], tv⟩

/-- Parameters of the Beta distribution returned by `tv_to_beta` (the scipy
distribution object is represented by its two parameters). -/
structure BetaParams where
  a : ℚ
  b : ℚ
deriving DecidableEq, Repr

/-- Source `tv_to_beta(tv, prior_a=1, prior_b=1)`: the priors default
to 1 at every call site; they are passed positionally here. -/
def tv_to_beta (tv : TruthValue) (prior_a prior_b : ℚ) : BetaParams :=
  let count := tv.count
  let pos_count := count * tv.mean
  ⟨prior_a + pos_count, prior_b + count - pos_count⟩

/-- One step of Python `max(..., key=lambda actp: actp[1])`: the running
maximum is replaced only when the new key is strictly greater, so the first
maximal element wins ties. -/
def pymax_step {α : Type} (acc q : α × ℚ) : α × ℚ :=
  if q.2 > acc.2 then q else acc

/-- Python `max(l, key=lambda actp: actp[1])`: `none` models the exception
raised on an empty sequence. -/
def pymax_snd {α : Type} : List (α × ℚ) → Option (α × ℚ)
  | [] => none
  | p :: ps => some (ps.foldl pymax_step p)

/-- The list `[(action, tv_rv(tv)) for (action, tv) in actdist]`: one variate
is drawn per pair, in iteration order; the draw made by the i-th call to
`tv_rv` is `draws (start + i)`. -/
def sampled (draws : Nat → ℚ) : Nat → List (Atom × TruthValue) → List (Atom × ℚ)
  | _, [] => []
  | i, p :: ps => (p.1, draws i) :: sampled draws (i + 1) ps

/-- Source `thompson_sample`. -/
def thompson_sample (draws : Nat → ℚ) (actdist : List (Atom × TruthValue)) :
    Option (Atom × ℚ) :=
  pymax_snd (sampled draws 0 actdist)

/-- Source `decide`: destructures the Thompson sample and returns the
pair; a failure of `thompson_sample` propagates. -/
def decide (draws : Nat → ℚ) (actdist : List (Atom × TruthValue)) :
    Option (Atom × ℚ) :=
  thompson_sample draws actdist

/-- Source `action_to_gym`: two equality tests, then an implicit
`return None` fall-through (there is no raise statement), modelled as `none`. -/
def action_to_gym (action : Atom) : Option Nat :=
  if SchemaNode "Go Right" = action then some 0
  else if SchemaNode "Go Left" = action then some 1
  else none

/-- Source `get_action`: `cnjs = cs.out[2].out`, then
`next(x for x in cnjs if x.type == types.ExecutionLink)` (the FIRST execution
clause; `StopIteration` on none, modelled as `none`), then `execution.out[0]`. -/
def get_action (cs : Atom) : Option Atom :=
  match cs.out[2]? with
  | none => none
  | some conj =>
    match conj.out.find? (fun x => x.atype == "ExecutionLink") with
    | none => none
    | some execution => execution.out[0]?

/-- A CartPole observation: the fixed 4-channel tuple. -/
structure Obs where
  cart_position : ℚ
  cart_velocity : ℚ
  pole_angle : ℚ
  pole_velocity : ℚ
deriving DecidableEq, Repr

/-- Source `observation_to_atomese` (the fourth predicate name
"Cart Velocity At Tip" is reproduced as written there). -/
def observation_to_atomese (observation : Obs) : List Atom :=
  [EvaluationLink (PredicateNode "Cart Position")
      (NumberNode (toString observation.cart_position)),
   EvaluationLink (PredicateNode "Cart Velocity")
      (NumberNode (toString observation.cart_velocity)),
   EvaluationLink (PredicateNode "Pole Angle")
      (NumberNode (toString observation.pole_angle)),
   EvaluationLink (PredicateNode "Cart Velocity At Tip")
      (NumberNode (toString observation.pole_velocity))]

/-- Source `reward_to_atomese`. -/
def reward_to_atomese (reward : ℚ) : Atom :=
  EvaluationLink (PredicateNode "Reward") (NumberNode (toString reward))

/-- Source `make_goal`: the goal is a reward of 1, independent of the
iteration argument. -/
def make_goal (_ci : Nat) : Atom :=
  reward_to_atomese 1

/-- Source `timestamp`: an AtTimeLink around the atom and a TimeNode,
annotated with the given truth value. -/
def timestamp (atom : Atom) (i : Nat) (tv : TruthValue) : TVAtom :=
  ⟨AtTimeLink atom (TimeNode (toString i)), tv⟩

/-- Source `plan`: two hardwired cognitive schematics, built from the
expiry but not from the goal, each annotated with truth value (0.9, 0.1). -/
def plan (_goal : Atom) (expiry : ℤ) : List TVAtom :=
  let angle := VariableNode "$angle"
  let numt := TypeNode "NumberNode"
  let time_offset := NumberNode (toString expiry)
  let pole_angle := PredicateNode "Pole Angle"
  let go_right := SchemaNode "Go Right"
  let go_left := SchemaNode "Go Left"
  let reward := PredicateNode "Reward"
  let zero := NumberNode "0"
  let unit := NumberNode "1"
  let TV := TruthValue.mk (9/10) (1/10)
  let cs_r :=
    PredictiveImplicationScopeLink
      (TypedVariableLink angle numt)
      time_offset
      (AndLink
        [EvaluationLink pole_angle angle,
         GreaterThanLink angle zero,
         ExecutionLink go_right])
      (EvaluationLink reward unit)
      TV
  let cs_l :=
    PredictiveImplicationScopeLink
      (TypedVariableLink angle numt)
      time_offset
      (AndLink
        [EvaluationLink pole_angle angle,
         GreaterThanLink zero angle,
         ExecutionLink go_left])
      (EvaluationLink reward unit)
      TV
  [cs_l, cs_r]

/-- The traversal underlying the set comprehension
`{get_action(cs) for cs in css}`: extract every action in order, failing as
soon as one extraction fails. -/
def collect_actions : List TVAtom → Option (List Atom)
  | [] => some []
  | cs :: rest =>
    match get_action cs.atom, collect_actions rest with
    | some a, some tl => some (a :: tl)
    | _, _ => none

/-- Source `deduce`: the distinct actions of the schematics (the
Python set is modelled as `List.dedup` of the traversal; the claims checked
here do not depend on the set's iteration order), each paired with the
placeholder truth value (1, 0). -/
def deduce (css : List TVAtom) : Option (List (Atom × TruthValue)) :=
  (collect_actions css).map
    (fun actions => actions.dedup.map (fun action => (action, TruthValue.mk 1 0)))

/-- The tuple returned by one `env.step` call. -/
structure EnvResult where
  observation : Obs
  reward : ℚ
  done : Bool
deriving DecidableEq, Repr

/-- The mutable globals of the timestep controller: the stored observation and
`cartpole_step_count`. -/
structure StepState where
  observation : Obs
  count : Nat
deriving DecidableEq, Repr

/-- Source `cartpole_step`, as a function of the environment's step
behaviour (`envStep`), the variate stream and the mutable state.  Returns the
updated state, whether `env.close()` was called, and the continuation truth
value; `none` models an uncaught exception inside the tick.  The `time.sleep`,
rendering and printing have no behavioural content and are omitted. -/
def cartpole_step (envStep : Option Nat → EnvResult) (draws : Nat → ℚ)
    (s : StepState) : Option (StepState × Bool × TruthValue) :=
  let i := s.count
  let _timestamped_obs :=
    (observation_to_atomese s.observation).map
      (fun o => timestamp o i (TruthValue.mk 1 1))
  let goal := make_goal i
  let expiry : ℤ := 1
  let css := plan goal expiry
  match deduce css with
  | none => none
  | some actdist =>
    match decide draws actdist with
    | none => none
    | some (action, _pblty) =>
      let gym_action := action_to_gym action
      let r := envStep gym_action
      let _timestamped_reward :=
        timestamp (reward_to_atomese r.reward) i (TruthValue.mk 1 1)
      let s' : StepState := ⟨r.observation, s.count + 1⟩
      if r.done then some (s', true, TruthValue.mk 0 1)
      else some (s', false, TruthValue.mk 1 1)

/-- Well-formedness of a cognitive schematic per the spec's invariant: the
body conjunction (third outgoing position) holds exactly one execution clause,
and that clause names an action. -/
def well_formed (cs : Atom) : Bool :=
  match cs.out[2]? with
  | some conj =>
    match conj.out.filter (fun x => x.atype == "ExecutionLink") with
    | [e] => !e.out.isEmpty
    | _ => false
  | none => false

/-- Body conjunction holding two execution clauses. -/
def twoExecBody : Atom :=
  AndLink [ExecutionLink (SchemaNode "Go A"), ExecutionLink (SchemaNode "Go B")]

/-- A schematic whose body holds two execution clauses. -/
def twoExecCS : Atom :=
  Atom.link "PredictiveImplicationScopeLink"
    [TypedVariableLink (VariableNode "$x") (TypeNode "NumberNode"),
     NumberNode "1", twoExecBody,
     EvaluationLink (PredicateNode "Reward") (NumberNode "1")]

/-- Body conjunction holding one context clause and one execution clause. -/
def oneExecBody : Atom :=
  AndLink [EvaluationLink (PredicateNode "Pole Angle") (VariableNode "$x"),
           ExecutionLink (SchemaNode "Go Left")]

/-- A schematic whose body holds exactly one execution clause. -/
def oneExecCS : Atom :=
  Atom.link "PredictiveImplicationScopeLink"
    [TypedVariableLink (VariableNode "$x") (TypeNode "NumberNode"),
     NumberNode "1", oneExecBody,
     EvaluationLink (PredicateNode "Reward") (NumberNode "1")]

/-- A two-action distribution with the placeholder truth values. -/
def sampleActdist : List (Atom × TruthValue) :=
  [(SchemaNode "Go Left", TruthValue.mk 1 0),
   (SchemaNode "Go Right", TruthValue.mk 1 0)]

/-- A variate stream that always draws 0. -/
def zeroDraws : Nat → ℚ := fun _ => 0

/-- An environment whose step never ends the episode. -/
def envStepConst : Option Nat → EnvResult := fun _ => ⟨⟨0, 0, 0, 0⟩, 1, false⟩

/-- An environment whose step always ends the episode. -/
def envStepDone : Option Nat → EnvResult := fun _ => ⟨⟨0, 0, 0, 0⟩, 1, true⟩

/-- An initial controller state with positive pole angle. -/
def initState : StepState := ⟨⟨0, 0, 1/20, 0⟩, 0⟩

/-- The state after one tick of `envStepConst` from `initState`. -/
def nextState : StepState := ⟨⟨0, 0, 0, 0⟩, 1⟩

/-
Helper lemmas.
-/

theorem find_eq_head_filter {α : Type} (p : α → Bool) :
    ∀ l : List α, l.find? p = (l.filter p).head? := by
  intro l
  induction l with
  | nil => rfl
  | cons x xs ih =>
    cases h : p x
    · rw [List.find?_cons_of_neg _ (by simp [h]),
        List.filter_cons_of_neg (by simp [h]), ih]
    · rw [List.find?_cons_of_pos _ h, List.filter_cons_of_pos h, List.head?_cons]

theorem pymax_foldl_ge {α : Type} :
    ∀ (l : List (α × ℚ)) (p : α × ℚ), p.2 ≤ (l.foldl pymax_step p).2 := by
  intro l
  induction l with
  | nil => intro p; exact le_refl _
  | cons q t ih =>
    intro p
    rw [List.foldl_cons]
    refine le_trans ?_ (ih (pymax_step p q))
    unfold pymax_step
    split
    · exact le_of_lt (by assumption)
    · exact le_refl _

theorem pymax_foldl_decomp {α : Type} :
    ∀ (l : List (α × ℚ)) (p : α × ℚ),
      ∃ l₁ l₂, p :: l = l₁ ++ (l.foldl pymax_step p) :: l₂ ∧
        (∀ x ∈ l₁, x.2 < (l.foldl pymax_step p).2) ∧
        (∀ x ∈ l₂, x.2 ≤ (l.foldl pymax_step p).2) := by
  intro l
  induction l with
  | nil =>
    intro p
    exact ⟨[], [], rfl, by simp, by simp⟩
  | cons q t ih =>
    intro p
    rw [List.foldl_cons]
    by_cases h : q.2 > p.2
    · have hstep : pymax_step p q = q := by simp [pymax_step, h]
      rw [hstep]
      obtain ⟨l₁, l₂, hdec, hlt, hle⟩ := ih q
      refine ⟨p :: l₁, l₂, ?_, ?_, hle⟩
      · rw [List.cons_append, ← hdec]
      · intro x hx
        rcases List.mem_cons.mp hx with rfl | hx'
        · exact lt_of_lt_of_le h (pymax_foldl_ge t q)
        · exact hlt x hx'
    · have hstep : pymax_step p q = p := by simp [pymax_step, h]
      rw [hstep]
      obtain ⟨l₁, l₂, hdec, hlt, hle⟩ := ih p
      cases l₁ with
      | nil =>
        simp only [List.nil_append] at hdec
        have hp : p = t.foldl pymax_step p := (List.cons.injEq _ _ _ _).mp hdec |>.1
        have ht : t = l₂ := (List.cons.injEq _ _ _ _).mp hdec |>.2
        refine ⟨[], q :: t, ?_, by simp, ?_⟩
        · simp only [List.nil_append]
          rw [← hp]
        · intro x hx
          rcases List.mem_cons.mp hx with rfl | hx'
          · rw [← hp]; exact le_of_not_lt h
          · rw [ht] at hx'; exact hle x hx'
      | cons p' l₁' =>
        simp only [List.cons_append] at hdec
        have hp : p = p' := (List.cons.injEq _ _ _ _).mp hdec |>.1
        have ht : t = l₁' ++ (t.foldl pymax_step p) :: l₂ :=
          (List.cons.injEq _ _ _ _).mp hdec |>.2
        have hplt : p.2 < (t.foldl pymax_step p).2 := by
          have := hlt p' (List.mem_cons_self _ _)
          rw [← hp] at this
          exact this
        refine ⟨p :: q :: l₁', l₂, ?_, ?_, hle⟩
        · rw [List.cons_append, List.cons_append, ← ht]
        · intro x hx
          rcases List.mem_cons.mp hx with rfl | hx'
          · exact hplt
          · rcases List.mem_cons.mp hx' with rfl | hx''
            · exact lt_of_le_of_lt (le_of_not_lt h) hplt
            · exact hlt x (List.mem_cons_of_mem _ hx'')

theorem pymax_snd_spec {α : Type} (l : List (α × ℚ)) (hne : l ≠ []) :
    ∃ m l₁ l₂, pymax_snd l = some m ∧ l = l₁ ++ m :: l₂ ∧
      (∀ x ∈ l₁, x.2 < m.2) ∧ (∀ x ∈ l₂, x.2 ≤ m.2) := by
  cases l with
  | nil => exact absurd rfl hne
  | cons p ps =>
    obtain ⟨l₁, l₂, hdec, hlt, hle⟩ := pymax_foldl_decomp ps p
    exact ⟨ps.foldl pymax_step p, l₁, l₂, rfl, hdec, hlt, hle⟩

theorem sampled_length (draws : Nat → ℚ) :
    ∀ (l : List (Atom × TruthValue)) (i : Nat), (sampled draws i l).length = l.length := by
  intro l
  induction l with
  | nil => intro i; rfl
  | cons p ps ih => intro i; simp [sampled, ih]

theorem sampled_getElem (draws : Nat → ℚ) :
    ∀ (l : List (Atom × TruthValue)) (i j : Nat),
      (sampled draws i l)[j]? = (l[j]?).map (fun q => (q.1, draws (i + j))) := by
  intro l
  induction l with
  | nil => intro i j; rfl
  | cons p ps ih =>
    intro i j
    cases j with
    | zero => simp [sampled]
    | succ j' =>
      have harith : i + 1 + j' = i + (j' + 1) := by omega
      show ((p.1, draws i) :: sampled draws (i + 1) ps)[j' + 1]? = _
      rw [List.getElem?_cons_succ, List.getElem?_cons_succ, ih (i + 1) j', harith]

theorem sampled_ne_nil (draws : Nat → ℚ) (l : List (Atom × TruthValue))
    (i : Nat) (hne : l ≠ []) : sampled draws i l ≠ [] := by
  cases l with
  | nil => exact absurd rfl hne
  | cons p ps => simp [sampled]

/-
Claim theorems.
-/

/-- C1 counterexample: on the unknown symbolic action "Go Up" the translation
does not fail: it returns the silent default `none` (Python's implicit
`return None`; `action_to_gym` holds no raise statement), and that value then
flows on into the environment step.  This refutes "for any other token it
fails with an UnknownAction error rather than returning silently". -/
theorem action_to_gym_unknown_counterexample :
    action_to_gym (SchemaNode "Go Up") = none := by decide

/-- C1 (amended): the translation maps "Go Right" (SchemaNode "Go Right") to 0
and "Go Left" (SchemaNode "Go Left") to 1, and on any other token it returns
the silent default value None (here `none`) rather than failing with an
error. -/
theorem action_to_gym_spec :
    action_to_gym (SchemaNode "Go Right") = some 0 ∧
    action_to_gym (SchemaNode "Go Left") = some 1 ∧
    ∀ action : Atom, action ≠ SchemaNode "Go Right" →
      action ≠ SchemaNode "Go Left" → action_to_gym action = none := by
  refine ⟨by decide, by decide, ?_⟩
  intro action h1 h2
  unfold action_to_gym
  rw [if_neg (fun h => h1 h.symm), if_neg (fun h => h2 h.symm)]

/-- Witness for C1: the amended theorem applied to the concrete unknown token
"Go Up". -/
theorem action_to_gym_spec_witness :
    action_to_gym (SchemaNode "Go Up") = none :=
  action_to_gym_spec.2.2 (SchemaNode "Go Up") (by decide) (by decide)

/-- C6 counterexample: on the empty schematic sequence `deduce` succeeds with
the empty action distribution; it does not fail.  This refutes "it fails with
an EmptyInput error (rather than returning an empty distribution)". -/
theorem deduce_nil_counterexample : deduce [] = some [] := rfl

/-- C6 (amended): when `deduce` is given an empty schematic sequence it
returns an empty action distribution (no failure). -/
theorem deduce_nil : deduce ([] : List TVAtom) = some [] := rfl

/-- C7: for strength in [0,1], evidential count ≥ 0 and positive priors,
`tv_to_beta` yields a = priorA + count·strength and
b = priorB + count·(1 − strength); with the default priors both are 1; and
both parameters are strictly positive. -/
theorem tv_to_beta_spec (tv : TruthValue) (prior_a prior_b : ℚ)
    (h0 : 0 ≤ tv.mean) (h1 : tv.mean ≤ 1) (hc : 0 ≤ tv.count)
    (hpa : 0 < prior_a) (hpb : 0 < prior_b) :
    (tv_to_beta tv prior_a prior_b).a = prior_a + tv.count * tv.mean ∧
    (tv_to_beta tv prior_a prior_b).b = prior_b + tv.count * (1 - tv.mean) ∧
    (tv_to_beta tv 1 1).a = 1 + tv.count * tv.mean ∧
    (tv_to_beta tv 1 1).b = 1 + tv.count * (1 - tv.mean) ∧
    0 < (tv_to_beta tv prior_a prior_b).a ∧
    0 < (tv_to_beta tv prior_a prior_b).b := by
  have ha : (tv_to_beta tv prior_a prior_b).a = prior_a + tv.count * tv.mean := rfl
  have hb : (tv_to_beta tv prior_a prior_b).b =
      prior_b + tv.count - tv.count * tv.mean := rfl
  refine ⟨ha, ?_, rfl, ?_, ?_, ?_⟩
  · rw [hb]; ring
  · show (1 : ℚ) + tv.count - tv.count * tv.mean = 1 + tv.count * (1 - tv.mean)
    ring
  · rw [ha]; nlinarith [mul_nonneg hc h0]
  · rw [hb]; nlinarith [mul_nonneg hc (by linarith : (0 : ℚ) ≤ 1 - tv.mean)]

/-- Witness for C7 at tv = (1/2, 2) with priors (2, 3). -/
theorem tv_to_beta_spec_witness :
    0 < (tv_to_beta ⟨1/2, 2⟩ 2 3).a ∧ 0 < (tv_to_beta ⟨1/2, 2⟩ 2 3).b :=
  ⟨(tv_to_beta_spec ⟨1/2, 2⟩ 2 3 (by norm_num) (by norm_num) (by norm_num)
      (by norm_num) (by norm_num)).2.2.2.2.1,
   (tv_to_beta_spec ⟨1/2, 2⟩ 2 3 (by norm_num) (by norm_num) (by norm_num)
      (by norm_num) (by norm_num)).2.2.2.2.2⟩

/-- C8 counterexample: with evidentialCount = 0 (allowed by the claim's
"evidentialCount ≥ 0") and strengths 0 < 1 in [0,1], `tv_to_beta` yields equal
a parameters and equal b parameters, so the increase is not strict.  This is
the spec's own zero-evidence neutrality case. -/
theorem tv_to_beta_mono_counterexample :
    (0 : ℚ) ≤ 0 ∧ (0 : ℚ) < 1 ∧ (1 : ℚ) ≤ 1 ∧
    (tv_to_beta ⟨1, 0⟩ 1 1).a = (tv_to_beta ⟨0, 0⟩ 1 1).a ∧
    (tv_to_beta ⟨1, 0⟩ 1 1).b = (tv_to_beta ⟨0, 0⟩ 1 1).b := by
  refine ⟨le_refl _, by norm_num, le_refl _, ?_, ?_⟩ <;>
    simp [tv_to_beta]

/-- C8 (amended): for every fixed evidentialCount > 0 and strengths
s₁ < s₂ in [0,1], `tv_to_beta` at s₂ yields a strictly larger a and a strictly
smaller b than at s₁ (at count 0 the parameters are unchanged, so strictness
needs a positive count). -/
theorem tv_to_beta_strict_mono (c s₁ s₂ prior_a prior_b : ℚ)
    (hc : 0 < c) (h0 : 0 ≤ s₁) (h12 : s₁ < s₂) (h1 : s₂ ≤ 1) :
    (tv_to_beta ⟨s₁, c⟩ prior_a prior_b).a <
      (tv_to_beta ⟨s₂, c⟩ prior_a prior_b).a ∧
    (tv_to_beta ⟨s₂, c⟩ prior_a prior_b).b <
      (tv_to_beta ⟨s₁, c⟩ prior_a prior_b).b := by
  constructor
  · show prior_a + c * s₁ < prior_a + c * s₂
    nlinarith
  · show prior_b + c - c * s₂ < prior_b + c - c * s₁
    nlinarith

/-- Witness for C8 (amended) at count 1, strengths 0 < 1, default priors. -/
theorem tv_to_beta_strict_mono_witness :
    (tv_to_beta ⟨0, 1⟩ 1 1).a < (tv_to_beta ⟨1, 1⟩ 1 1).a ∧
    (tv_to_beta ⟨1, 1⟩ 1 1).b < (tv_to_beta ⟨0, 1⟩ 1 1).b :=
  tv_to_beta_strict_mono 1 0 1 1 1 (by norm_num) (le_refl _) (by norm_num)
    (le_refl _)

/-- C2 counterexample: on a schematic whose body conjunction holds two
execution clauses, `get_action` does not fail: it returns the first clause's
action token.  This refutes "for every schematic whose body contains ... more
than one execution clause, getAction fails". -/
theorem get_action_multi_counterexample :
    twoExecCS.out[2]? = some twoExecBody ∧
    (twoExecBody.out.filter (fun x => x.atype == "ExecutionLink")).length = 2 ∧
    get_action twoExecCS = some (SchemaNode "Go A") :=
  ⟨rfl, rfl, rfl⟩

/-- C2 (amended): scanning the body conjunction, `get_action` fails when it
holds zero execution clauses, and when it holds one or more execution clauses
it returns the first one's action token (exactly one clause is the intended
case; on several clauses it does not fail but takes the first). -/
theorem get_action_spec (cs conj : Atom) (h : cs.out[2]? = some conj) :
    (conj.out.filter (fun x => x.atype == "ExecutionLink") = [] →
      get_action cs = none) ∧
    (∀ e a tl, conj.out.filter (fun x => x.atype == "ExecutionLink") = e :: tl →
      e.out[0]? = some a → get_action cs = some a) := by
  constructor
  · intro hz
    simp only [get_action, h]
    rw [find_eq_head_filter, hz]
    rfl
  · intro e a tl hfilter hea
    simp only [get_action, h]
    rw [find_eq_head_filter, hfilter]
    simpa using hea

/-- Witness for C2 on a schematic with exactly one execution clause carrying
action "Go Left". -/
theorem get_action_spec_witness :
    get_action oneExecCS = some (SchemaNode "Go Left") :=
  (get_action_spec oneExecCS oneExecBody rfl).2
    (ExecutionLink (SchemaNode "Go Left")) (SchemaNode "Go Left") [] rfl rfl

/-- C4: for every goal and expiry, `plan` returns exactly two schematics,
independent of the goal's content: one with context "pole-angle < 0" and
action "Go Left", one with context "pole-angle > 0" and action "Go Right",
each carrying the expiry as its time offset (second outgoing position) and
truth value (0.9, 0.1); in particular the result is never empty. -/
theorem plan_spec (goal : Atom) (expiry : ℤ) :
    plan goal expiry ≠ [] ∧
    (∀ goal2 : Atom, plan goal2 expiry = plan goal expiry) ∧
    ∃ cs_l cs_r : TVAtom,
      plan goal expiry = [cs_l, cs_r] ∧
      cs_l.tv = TruthValue.mk (9/10) (1/10) ∧
      cs_r.tv = TruthValue.mk (9/10) (1/10) ∧
      cs_l.atom.out[1]? = some (NumberNode (toString expiry)) ∧
      cs_r.atom.out[1]? = some (NumberNode (toString expiry)) ∧
      get_action cs_l.atom = some (SchemaNode "Go Left") ∧
      get_action cs_r.atom = some (SchemaNode "Go Right") ∧
      cs_l.atom.out[2]? = some (AndLink
        [EvaluationLink (PredicateNode "Pole Angle") (VariableNode "$angle"),
         GreaterThanLink (NumberNode "0") (VariableNode "$angle"),
         ExecutionLink (SchemaNode "Go Left")]) ∧
      cs_r.atom.out[2]? = some (AndLink
        [EvaluationLink (PredicateNode "Pole Angle") (VariableNode "$angle"),
         GreaterThanLink (VariableNode "$angle") (NumberNode "0"),
         ExecutionLink (SchemaNode "Go Right")]) := by
  refine ⟨?_, fun goal2 => rfl, _, _, rfl, rfl, rfl, rfl, rfl, rfl, rfl, rfl, rfl⟩
  intro hcontra
  exact List.noConfusion hcontra

/-- C3: for every non-empty action distribution and every variate stream,
`decide` draws one variate per (action, truth value) pair — the j-th entry of
the drawn list pairs the j-th action with the j-th draw — and returns the
first pair achieving the maximal variate (every earlier pair is strictly
below it, every later pair is at most it), and the returned probability is
exactly that chosen pair's drawn variate. -/
theorem decide_thompson_spec (draws : Nat → ℚ)
    (actdist : List (Atom × TruthValue)) (hne : actdist ≠ []) :
    (sampled draws 0 actdist).length = actdist.length ∧
    (∀ j : Nat, (sampled draws 0 actdist)[j]? =
      (actdist[j]?).map (fun q => (q.1, draws j))) ∧
    ∃ a p l₁ l₂,
      decide draws actdist = some (a, p) ∧
      sampled draws 0 actdist = l₁ ++ (a, p) :: l₂ ∧
      (∀ x ∈ l₁, x.2 < p) ∧
      (∀ x ∈ l₂, x.2 ≤ p) := by
  refine ⟨sampled_length draws actdist 0, ?_, ?_⟩
  · intro j
    have := sampled_getElem draws actdist 0 j
    simpa using this
  · obtain ⟨m, l₁, l₂, hmax, hdec, hlt, hle⟩ :=
      pymax_snd_spec (sampled draws 0 actdist)
        (sampled_ne_nil draws actdist 0 hne)
    exact ⟨m.1, m.2, l₁, l₂, hmax, hdec, hlt, hle⟩

/-- Witness for C3 on the concrete two-action distribution and the all-zero
variate stream. -/
theorem decide_thompson_spec_witness :
    ∃ a p l₁ l₂,
      decide zeroDraws sampleActdist = some (a, p) ∧
      sampled zeroDraws 0 sampleActdist = l₁ ++ (a, p) :: l₂ ∧
      (∀ x ∈ l₁, x.2 < p) ∧
      (∀ x ∈ l₂, x.2 ≤ p) :=
  (decide_thompson_spec zeroDraws sampleActdist (by decide)).2.2

theorem well_formed_get_action (cs : Atom) (h : well_formed cs = true) :
    ∃ a, get_action cs = some a := by
  unfold well_formed at h
  cases hcs : cs.out[2]? with
  | none => rw [hcs] at h; simp at h
  | some conj =>
    rw [hcs] at h
    replace h : (match conj.out.filter (fun x => x.atype == "ExecutionLink") with
      | [e] => !e.out.isEmpty
      | _ => false) = true := h
    cases hf : conj.out.filter (fun x => x.atype == "ExecutionLink") with
    | nil => rw [hf] at h; simp at h
    | cons e tl =>
      cases tl with
      | cons e2 tl2 => rw [hf] at h; simp at h
      | nil =>
        rw [hf] at h
        replace h : (!e.out.isEmpty) = true := h
        have hout : ∃ a, e.out[0]? = some a := by
          cases hx : e.out with
          | nil => rw [hx] at h; simp at h
          | cons a rest => exact ⟨a, List.getElem?_cons_zero⟩
        obtain ⟨a, ha⟩ := hout
        refine ⟨a, ?_⟩
        simp only [get_action, hcs]
        rw [find_eq_head_filter, hf]
        simpa using ha

theorem collect_actions_eq_some (css : List TVAtom)
    (hwf : ∀ cs ∈ css, ∃ a, get_action cs.atom = some a) :
    ∃ acts, collect_actions css = some acts ∧
      ∀ b, b ∈ acts ↔ ∃ cs ∈ css, get_action cs.atom = some b := by
  induction css with
  | nil => exact ⟨[], rfl, by simp⟩
  | cons cs rest ih =>
    obtain ⟨a, ha⟩ := hwf cs (List.mem_cons_self _ _)
    obtain ⟨tl, htl, hmem⟩ := ih (fun c hc => hwf c (List.mem_cons_of_mem _ hc))
    refine ⟨a :: tl, ?_, ?_⟩
    · simp only [collect_actions, ha, htl]
    · intro b
      simp only [List.mem_cons]
      constructor
      · rintro (rfl | hb)
        · exact ⟨cs, Or.inl rfl, ha⟩
        · obtain ⟨c, hc, hgc⟩ := (hmem b).mp hb
          exact ⟨c, Or.inr hc, hgc⟩
      · rintro ⟨c, (rfl | hc), hgc⟩
        · left
          rw [ha] at hgc
          exact (Option.some.injEq _ _).mp hgc.symm
        · exact Or.inr ((hmem b).mpr ⟨c, hc, hgc⟩)

/-- C5: for every non-empty list of well-formed schematics, `deduce` succeeds
and returns a distribution with pairwise-distinct action keys, whose keys are
exactly the distinct actions appearing across the input schematics, every
entry carrying the saturated placeholder truth value (1, 0); the distribution
is non-empty. -/
theorem deduce_spec (css : List TVAtom) (hne : css ≠ [])
    (hwf : ∀ cs ∈ css, well_formed cs.atom = true) :
    ∃ d, deduce css = some d ∧
      (d.map Prod.fst).Nodup ∧
      (∀ p ∈ d, p.2 = TruthValue.mk 1 0) ∧
      (∀ a : Atom, a ∈ d.map Prod.fst ↔
        ∃ cs ∈ css, get_action cs.atom = some a) ∧
      d ≠ [] := by
  obtain ⟨acts, hacts, hmem⟩ :=
    collect_actions_eq_some css
      (fun cs hc => well_formed_get_action cs.atom (hwf cs hc))
  have hkeys : ((acts.dedup.map (fun a => (a, TruthValue.mk 1 0))).map Prod.fst)
      = acts.dedup := by
    rw [List.map_map]
    show List.map (fun a => a) acts.dedup = acts.dedup
    exact List.map_id _
  refine ⟨acts.dedup.map (fun a => (a, TruthValue.mk 1 0)), ?_, ?_, ?_, ?_, ?_⟩
  · simp only [deduce, hacts, Option.map_some']
  · rw [hkeys]; exact acts.nodup_dedup
  · intro p hp
    obtain ⟨a, _, rfl⟩ := List.mem_map.mp hp
    rfl
  · intro a
    rw [hkeys, List.mem_dedup]
    exact hmem a
  · cases css with
    | nil => exact absurd rfl hne
    | cons cs rest =>
      obtain ⟨a, ha⟩ :=
        well_formed_get_action cs.atom (hwf cs (List.mem_cons_self _ _))
      have haacts : a ∈ acts.dedup :=
        List.mem_dedup.mpr ((hmem a).mpr ⟨cs, List.mem_cons_self _ _, ha⟩)
      intro hd
      rw [List.map_eq_nil_iff] at hd
      rw [hd] at haacts
      exact List.not_mem_nil a haacts

/-- Witness for C5 on the two schematics produced by the stub planner. -/
theorem deduce_spec_witness :
    ∃ d, deduce (plan (make_goal 0) 1) = some d ∧
      (d.map Prod.fst).Nodup ∧
      (∀ p ∈ d, p.2 = TruthValue.mk 1 0) ∧
      (∀ a : Atom, a ∈ d.map Prod.fst ↔
        ∃ cs ∈ plan (make_goal 0) 1, get_action cs.atom = some a) ∧
      d ≠ [] :=
  deduce_spec (plan (make_goal 0) 1)
    (fun hcontra => List.noConfusion hcontra)
    (by intro cs hcs
        rcases List.mem_cons.mp hcs with rfl | hcs'
        · rfl
        · rcases List.mem_cons.mp hcs' with rfl | hcs''
          · rfl
          · exact absurd hcs'' (List.not_mem_nil cs))

theorem deduce_plan (g : Atom) (i : ℤ) :
    deduce (plan g i) =
      some [(SchemaNode "Go Left", TruthValue.mk 1 0),
            (SchemaNode "Go Right", TruthValue.mk 1 0)] := rfl

theorem decide_two (draws : Nat → ℚ) :
    decide draws [(SchemaNode "Go Left", TruthValue.mk 1 0),
                  (SchemaNode "Go Right", TruthValue.mk 1 0)] =
      some (if draws 1 > draws 0 then (SchemaNode "Go Right", draws 1)
            else (SchemaNode "Go Left", draws 0)) := rfl

theorem cartpole_step_eq (envStep : Option Nat → EnvResult) (draws : Nat → ℚ)
    (s : StepState) :
    ∃ action : Atom,
      cartpole_step envStep draws s =
        some (⟨(envStep (action_to_gym action)).observation, s.count + 1⟩,
              (envStep (action_to_gym action)).done,
              if (envStep (action_to_gym action)).done then TruthValue.mk 0 1
              else TruthValue.mk 1 1) := by
  by_cases hgt : draws 1 > draws 0
  · refine ⟨SchemaNode "Go Right", ?_⟩
    cases hdone : (envStep (action_to_gym (SchemaNode "Go Right"))).done <;>
      simp [cartpole_step, deduce_plan, decide_two, if_pos hgt, hdone]
  · refine ⟨SchemaNode "Go Left", ?_⟩
    cases hdone : (envStep (action_to_gym (SchemaNode "Go Left"))).done <;>
      simp [cartpole_step, deduce_plan, decide_two, if_neg hgt, hdone]

/-- C9: on every tick, the continuation signal and the closing of the
environment are decided by the environment step's done flag: done = true
closes the environment and yields the terminal truth value (0, 1); done =
false leaves it open and yields the continuation truth value (1, 1); the
stored observation becomes the step's new observation. -/
theorem cartpole_step_signal (envStep : Option Nat → EnvResult)
    (draws : Nat → ℚ) (s s' : StepState) (closed : Bool) (res : TruthValue)
    (h : cartpole_step envStep draws s = some (s', closed, res)) :
    ∃ ga : Option Nat,
      closed = (envStep ga).done ∧
      res = (if (envStep ga).done then TruthValue.mk 0 1
             else TruthValue.mk 1 1) ∧
      s'.observation = (envStep ga).observation := by
  obtain ⟨action, heq⟩ := cartpole_step_eq envStep draws s
  rw [heq] at h
  injection h with h'
  injection h' with h1 h23
  injection h23 with h2 h3
  subst h1 h2 h3
  exact ⟨action_to_gym action, rfl, rfl, rfl⟩

/-- Witness for C9 on a non-terminating environment step. -/
theorem cartpole_step_signal_witness :
    ∃ ga : Option Nat,
      false = (envStepConst ga).done ∧
      TruthValue.mk 1 1 = (if (envStepConst ga).done then TruthValue.mk 0 1
                           else TruthValue.mk 1 1) ∧
      nextState.observation = (envStepConst ga).observation :=
  cartpole_step_signal envStepConst zeroDraws initState nextState false
    (TruthValue.mk 1 1) rfl

/-- C10: on every tick, including a terminal one, the step counter advances by
exactly 1. -/
theorem cartpole_step_count_increment (envStep : Option Nat → EnvResult)
    (draws : Nat → ℚ) (s s' : StepState) (closed : Bool) (res : TruthValue)
    (h : cartpole_step envStep draws s = some (s', closed, res)) :
    s'.count = s.count + 1 := by
  obtain ⟨action, heq⟩ := cartpole_step_eq envStep draws s
  rw [heq] at h
  injection h with h'
  injection h' with h1 h23
  rw [← h1]

/-- Witness for C10 on a terminal tick (done = true): the counter still
advances. -/
theorem cartpole_step_count_increment_witness :
    nextState.count = initState.count + 1 :=
  cartpole_step_count_increment envStepDone zeroDraws initState nextState true
    (TruthValue.mk 0 1) rfl
